import Mathlib

/-!
# Health-Monitor: aggregation, reporting, probing and scheduling

A shallow embedding of the Go sources `aggregator.go`, `reporter.go`,
`checker.go` and the sequential parts of `main.go`, followed by theorems
about them.

Conventions of the embedding

* `uint64` counters are natural numbers reduced modulo `2 ^ 64` by every
  atomic addition.
* `time.Duration` and `time.Time` are integers (nanoseconds).
* a Go `error` is `Option String` (`none` is `nil`, `some msg` carries the
  message).
* a Go `map[string]V` is a list of bindings with at most one binding per key;
  only lookup, store and length are used, so the order of the bindings is
  never observed.
* a pointer to a copied `Result` (`*Result`, possibly `nil`) is
  `Option Result`.
-/

namespace HealthMonitor

/-! ## Go maps with string keys -/

/-- Go `map[string]V`: a list of bindings, one per key. -/
structure GoMap (α : Type) where
  entries : List (String × α)
  deriving DecidableEq, Repr

namespace GoMap

variable {α : Type}

/-- The empty map, `make(map[string]V)`. -/
def empty : GoMap α := ⟨[]⟩

/-- Lookup on the list of bindings. -/
def lookupEntries : List (String × α) → String → Option α
  | [], _ => none
  | (k, v) :: rest, key => if k = key then some v else lookupEntries rest key

/-- Store on the list of bindings: replace the binding of `key`, or add one. -/
def storeEntries : List (String × α) → String → α → List (String × α)
  | [], key, v => [(key, v)]
  | (k, w) :: rest, key, v =>
    if k = key then (k, v) :: rest else (k, w) :: storeEntries rest key v

/-- The lookup `v, exists := m[key]`. -/
def lookup (m : GoMap α) (key : String) : Option α := lookupEntries m.entries key

/-- The assignment `m[key] = v`. -/
def store (m : GoMap α) (key : String) (v : α) : GoMap α :=
  ⟨storeEntries m.entries key v⟩

/-- The keys bound in the map. -/
def keys (m : GoMap α) : List String := m.entries.map Prod.fst

/-- The number of bindings, `len(m)`. -/
def len (m : GoMap α) : Nat := m.entries.length

end GoMap

/-! ## checker.go: data -/

/-- A value stored in `Metrics map[string]any`: an `int` or an `int64`. -/
inductive MetricValue where
  | int (v : Int)
  | int64 (v : Int)
  deriving DecidableEq, Repr

/-- Checker represents a service health checker. -/
structure Checker where
  URL : String
  deriving DecidableEq, Repr

/-- Result represents the result of a health check. -/
structure Result where
  URL : String
  Timestamp : Int
  Success : Bool
  Duration : Int
  Error : Option String
  Metrics : GoMap MetricValue
  deriving DecidableEq, Repr

/-! ## reporter.go: the reporter interface -/

/-- HealthReporter is the interface for reporting results.  `σ` is whatever the
reporter writes to (its output sink and own fields); `Report` returns the
updated sink and the `error` it hands back. -/
structure HealthReporter (σ : Type) where
  Report : σ → Result → Option Result → σ × Option String

/-! ## aggregator.go -/

/-- The word size of the counters. -/
def uint64Size : Nat := 2 ^ 64

/-- The call `atomic.AddUint64(&x, delta)`: wrapping addition, returns the new value. -/
def atomicAddUint64 (x delta : Nat) : Nat := (x + delta) % uint64Size

/-- Aggregator collects and summarizes health check results. -/
structure Aggregator where
  TotalChecks : Nat
  SuccessCount : Nat
  FailureCount : Nat
  TotalDuration : Int
  LastResults : GoMap Result
  deriving DecidableEq, Repr

/-- NewAggregator creates a new Aggregator: zero counters, empty map. -/
def NewAggregator : Aggregator :=
  { TotalChecks := 0, SuccessCount := 0, FailureCount := 0, TotalDuration := 0,
    LastResults := GoMap.empty }

/-- One invocation `reporter.Report(result, previousState)`, as recorded by
the embedding of `ProcessResult`. -/
structure ReportCall where
  result : Result
  previousState : Option Result
  deriving DecidableEq, Repr

/-- What one call of `ProcessResult` leaves behind: the aggregator, the
reporter's sink, and the reporter invocations the call made, in order. -/
structure Processed (σ : Type) where
  agg : Aggregator
  sink : σ
  calls : List ReportCall

/-- ProcessResult processes a health check result.  `reporter = none` is the
`nil` interface value. -/
def Aggregator.ProcessResult {σ : Type} (a : Aggregator) (result : Result)
    (reporter : Option (HealthReporter σ)) (sink : σ) : Processed σ :=
  -- Update atomic counters
  let total := atomicAddUint64 a.TotalChecks 1
  let success := if result.Success then atomicAddUint64 a.SuccessCount 1 else a.SuccessCount
  let failure := if result.Success then a.FailureCount else atomicAddUint64 a.FailureCount 1
  -- Get previous state for comparison (a copy of the stored entry, or nil)
  let previousState : Option Result := a.LastResults.lookup result.URL
  -- Report the result; the returned error is discarded
  let reported : σ × List ReportCall :=
    match reporter with
    | some r => ((r.Report sink result previousState).1, [⟨result, previousState⟩])
    | none => (sink, [])
  -- Update last known state
  let last := a.LastResults.store result.URL result
  { agg := { TotalChecks := total, SuccessCount := success, FailureCount := failure,
             TotalDuration := a.TotalDuration, LastResults := last },
    sink := reported.1,
    calls := reported.2 }

/-- The result-consumer loop of `main` on a finite sequence of results:
`ProcessResult` on each, one after another, with the same reporter. -/
def processAll {σ : Type} (reporter : Option (HealthReporter σ)) :
    Processed σ → List Result → Processed σ
  | p, [] => p
  | p, r :: rs =>
    let q := p.agg.ProcessResult r reporter p.sink
    processAll reporter { agg := q.agg, sink := q.sink, calls := p.calls ++ q.calls } rs

/-- The starting point of the consumer loop: a fresh aggregator and no
reporter invocation yet. -/
def fresh {σ : Type} (sink : σ) : Processed σ :=
  { agg := NewAggregator, sink := sink, calls := [] }

/-! ## reporter.go: the console reporter -/

/-- ConsoleReporter implements HealthReporter for console output. -/
structure ConsoleReporter where
  SlowThresholdMs : Int
  deriving DecidableEq, Repr

/-- The method `d.Milliseconds()`: the duration as whole milliseconds; Go's integer
division truncates toward zero. -/
def Milliseconds (d : Int) : Int := Int.tdiv d 1000000

/-- The string `fmt.Sprintf("%.2fms", float64(ms))`.  A millisecond count of an `int64`
duration is below `2 ^ 53` in absolute value, so the conversion is exact and
the two decimals printed are always `00`. -/
def formatMs (ms : Int) : String := toString ms ++ ".00ms"

/-- The string `fmt.Sprintf("⚠️ %s (slow)", responseTime)`. -/
def markSlow (responseTime : String) : String := "⚠️ " ++ responseTime ++ " (slow)"

/-- What one `Report` prints: the arguments of the first `Printf` (the
timestamp is kept as the instant that `Format(time.RFC3339)` renders) and the
error line of the second `Printf`, when there is one. -/
structure ConsoleLine where
  timestamp : Int
  url : String
  statusMsg : String
  responseTime : String
  stateChanged : String
  errorDetail : Option String
  deriving DecidableEq, Repr

/-- The line `Report` prints for `result` given `previousState`. -/
def ConsoleReporter.line (r : ConsoleReporter) (result : Result)
    (previousState : Option Result) : ConsoleLine :=
  -- Basic status message
  let statusMsg := if !result.Success then "❌ DOWN" else "✅ UP"
  -- Response time info
  let responseTime := formatMs (Milliseconds result.Duration)
  let responseTime :=
    if result.Success && decide (Milliseconds result.Duration > r.SlowThresholdMs) then
      markSlow responseTime
    else responseTime
  -- Check for state change
  let stateChanged :=
    match previousState with
    | some prev =>
      if prev.Success != result.Success then
        if result.Success then "🔄 RECOVERED" else "🔄 NEWLY DOWN"
      else ""
    | none => ""
  { timestamp := result.Timestamp, url := result.URL, statusMsg := statusMsg,
    responseTime := responseTime, stateChanged := stateChanged,
    errorDetail := result.Error.map (fun e => "  Error: " ++ e) }

/-- Report prints health check results to the console and returns `nil`. -/
def ConsoleReporter.Report (r : ConsoleReporter) (console : List ConsoleLine)
    (result : Result) (previousState : Option Result) : List ConsoleLine × Option String :=
  (console ++ [r.line result previousState], none)

/-- A `*ConsoleReporter` used as a `HealthReporter`. -/
def ConsoleReporter.toReporter (r : ConsoleReporter) : HealthReporter (List ConsoleLine) :=
  ⟨r.Report⟩

/-- The line carries the slow-response flag: its response-time field ends
with the ` (slow)` that only `markSlow` appends. -/
def ConsoleLine.flaggedSlow (l : ConsoleLine) : Prop :=
  List.IsSuffix " (slow)".data l.responseTime.data

instance (l : ConsoleLine) : Decidable l.flaggedSlow :=
  inferInstanceAs (Decidable (List.IsSuffix " (slow)".data l.responseTime.data))

/-! ## checker.go: Ping -/

/-- How the HTTP exchange of one `Ping` ends: the request cannot be built,
`http.DefaultClient.Do` returns an error after `elapsed`, or a response with
a status code arrives after `elapsed`. -/
inductive Exchange where
  | requestError (err : String)
  | transportError (err : String) (elapsed : Int)
  | response (statusCode : Int) (elapsed : Int)
  deriving DecidableEq, Repr

/-- Ping checks the health of a service.  `now` is `time.Now()` at entry;
the pair is the `(Result, error)` that Go returns. -/
def Checker.Ping (c : Checker) (now : Int) (x : Exchange) : Result × Option String :=
  let result : Result :=
    { URL := c.URL, Timestamp := now, Success := false, Duration := 0, Error := none,
      Metrics := GoMap.empty }
  match x with
  | .requestError err =>
    let result := { result with
      Error := some ("failed to create request for " ++ c.URL ++ ": " ++ err) }
    (result, result.Error)
  | .transportError err elapsed =>
    let result := { result with Duration := elapsed }
    let result := { result with
      Success := false
      Error := some ("request to " ++ c.URL ++ " failed: " ++ err) }
    (result, result.Error)
  | .response statusCode elapsed =>
    let result := { result with Duration := elapsed }
    -- Check if status code indicates success (2xx)
    let result := { result with Success := decide (statusCode ≥ 200) && decide (statusCode < 300) }
    let result := { result with
      Metrics := result.Metrics.store "statusCode" (MetricValue.int statusCode) }
    let result := { result with
      Metrics := result.Metrics.store "timeMs" (MetricValue.int64 (Milliseconds elapsed)) }
    let result :=
      if !result.Success then
        { result with
          Error := some ("service " ++ c.URL ++ " returned non-success status: "
            ++ toString statusCode) }
      else result
    (result, result.Error)

/-! ## main.go: the job queue, scheduleChecks and the worker -/

/-- The `jobs` channel as the scheduler sees it: its capacity, the jobs
waiting in its buffer, how many workers are parked in a receive on it, and
the jobs already passed straight to parked workers. -/
structure JobChan where
  capacity : Nat
  buffer : List Checker
  parked : Nat
  handed : List Checker
  deriving DecidableEq, Repr

/-- The channel `make(chan Checker, capacity)`; `main` uses capacity `0`. -/
def JobChan.make (capacity : Nat) : JobChan :=
  { capacity := capacity, buffer := [], parked := 0, handed := [] }

/-- A non-blocking send (`select` with a `default`): the value goes to a
parked receiver if there is one, otherwise into the buffer if it has room;
otherwise nothing is sent and the `default` branch runs. -/
def JobChan.trySend (ch : JobChan) (c : Checker) : JobChan × Bool :=
  if 0 < ch.parked then
    ({ ch with parked := ch.parked - 1, handed := ch.handed ++ [c] }, true)
  else if ch.buffer.length < ch.capacity then
    ({ ch with buffer := ch.buffer ++ [c] }, true)
  else (ch, false)

/-- What `scheduleChecks` did with one URL. -/
inductive Emission where
  | sent (job : Checker)
  | skipped (url : String)
  deriving DecidableEq, Repr

/-- The URL an emission is about. -/
def Emission.url : Emission → String
  | .sent job => job.URL
  | .skipped url => url

/-- The emission is a job that was sent. -/
def Emission.isSent : Emission → Bool
  | .sent _ => true
  | .skipped _ => false

/-- scheduleChecks sends all URLs to the jobs channel.  Returns the channel
afterwards and, per URL in order, whether its job was sent or the warning
`Job queue is full, skipping check for <url>` was printed. -/
def scheduleChecks : List String → JobChan → JobChan × List Emission
  | [], jobs => (jobs, [])
  | url :: urls, jobs =>
    match jobs.trySend { URL := url } with
    | (jobs1, true) =>
      let rest := scheduleChecks urls jobs1
      (rest.1, Emission.sent { URL := url } :: rest.2)
    | (jobs1, false) =>
      let rest := scheduleChecks urls jobs1
      (rest.1, Emission.skipped url :: rest.2)

/-- The jobs a run of `scheduleChecks` put on the channel, in order. -/
def sentJobs : List Emission → List Checker
  | [] => []
  | Emission.sent job :: rest => job :: sentJobs rest
  | Emission.skipped _ :: rest => sentJobs rest

/-- The `jobs` channel of `main`, `make(chan Checker)` without a buffer, at
the moment the scheduler runs a tick: `waiting` of the worker goroutines are
parked in their receive on it and nothing has been handed over yet. -/
def mainJobs (waiting : Nat) : JobChan :=
  { capacity := 0, buffer := [], parked := waiting, handed := [] }

/-- A successful probe of the first sample endpoint, 120 ms. -/
def sampleUp : Result :=
  { URL := "https://example.com", Timestamp := 1000, Success := true, Duration := 120000000,
    Error := none, Metrics := GoMap.empty }

/-- A failed probe of the first sample endpoint, 900 ms. -/
def sampleDown : Result :=
  { URL := "https://example.com", Timestamp := 2000, Success := false, Duration := 900000000,
    Error := some "request to https://example.com failed: timeout", Metrics := GoMap.empty }

/-- A successful probe of the second sample endpoint, 30 ms. -/
def sampleOther : Result :=
  { URL := "https://google.com", Timestamp := 3000, Success := true, Duration := 30000000,
    Error := none, Metrics := GoMap.empty }

/-- A successful probe that took 500.999999 ms: one nanosecond short of
501 ms. -/
def sampleBorderline : Result :=
  { URL := "https://example.com", Timestamp := 4000, Success := true, Duration := 500999999,
    Error := none, Metrics := GoMap.empty }

/-- A successful probe that took exactly 501 ms. -/
def sampleSlow : Result :=
  { URL := "https://example.com", Timestamp := 4500, Success := true, Duration := 501000000,
    Error := none, Metrics := GoMap.empty }

/-- An aggregator whose map holds a failure for the first sample endpoint. -/
def sampleAggregator : Aggregator :=
  { TotalChecks := 1, SuccessCount := 0, FailureCount := 1, TotalDuration := 0,
    LastResults := GoMap.empty.store sampleDown.URL sampleDown }

/-- The console reporter of the default configuration (500 ms threshold). -/
def sampleReporter : ConsoleReporter := { SlowThresholdMs := 500 }

theorem processAll_snoc {σ : Type} (reporter : Option (HealthReporter σ))
    (p : Processed σ) (rs : List Result) (r : Result) :
    processAll reporter p (rs ++ [r]) =
      { agg := ((processAll reporter p rs).agg.ProcessResult r reporter
                  (processAll reporter p rs).sink).agg,
        sink := ((processAll reporter p rs).agg.ProcessResult r reporter
                  (processAll reporter p rs).sink).sink,
        calls := (processAll reporter p rs).calls ++
          ((processAll reporter p rs).agg.ProcessResult r reporter
            (processAll reporter p rs).sink).calls } := by
  induction rs generalizing p with
  | nil => simp [processAll]
  | cons x xs ih => simp only [List.cons_append, processAll]; exact ih _

theorem ProcessResult_total {σ : Type} (a : Aggregator) (r : Result)
    (reporter : Option (HealthReporter σ)) (sink : σ) :
    (a.ProcessResult r reporter sink).agg.TotalChecks = (a.TotalChecks + 1) % uint64Size := rfl

theorem ProcessResult_success {σ : Type} (a : Aggregator) (r : Result)
    (reporter : Option (HealthReporter σ)) (sink : σ) :
    (a.ProcessResult r reporter sink).agg.SuccessCount =
      if r.Success then (a.SuccessCount + 1) % uint64Size else a.SuccessCount := rfl

theorem ProcessResult_failure {σ : Type} (a : Aggregator) (r : Result)
    (reporter : Option (HealthReporter σ)) (sink : σ) :
    (a.ProcessResult r reporter sink).agg.FailureCount =
      if r.Success then a.FailureCount else (a.FailureCount + 1) % uint64Size := rfl

theorem ProcessResult_last {σ : Type} (a : Aggregator) (r : Result)
    (reporter : Option (HealthReporter σ)) (sink : σ) :
    (a.ProcessResult r reporter sink).agg.LastResults = a.LastResults.store r.URL r := rfl

/-- The counters after a run from a fresh aggregator, in closed form: the
number of results, of successes and of failures, each modulo `2 ^ 64`. -/
theorem processAll_counters {σ : Type} (reporter : Option (HealthReporter σ)) (sink : σ)
    (rs : List Result) :
    (processAll reporter (fresh sink) rs).agg.TotalChecks = rs.length % uint64Size ∧
    (processAll reporter (fresh sink) rs).agg.SuccessCount =
      (rs.countP (fun r => r.Success)) % uint64Size ∧
    (processAll reporter (fresh sink) rs).agg.FailureCount =
      (rs.countP (fun r => !r.Success)) % uint64Size := by
  induction rs using List.reverseRecOn with
  | nil => simp [processAll, fresh, NewAggregator, uint64Size]
  | append_singleton xs x ih =>
    obtain ⟨ht, hs, hf⟩ := ih
    rw [processAll_snoc]
    simp only [ProcessResult_total, ProcessResult_success, ProcessResult_failure, ht, hs, hf,
      List.length_append, List.length_singleton, List.countP_append, List.countP_cons,
      List.countP_nil]
    cases hx : x.Success <;> simp [uint64Size]

theorem countP_success_add_failure (rs : List Result) :
    rs.countP (fun r => r.Success) + rs.countP (fun r => !r.Success) = rs.length := by
  induction rs with
  | nil => rfl
  | cons x xs ih =>
    simp only [List.countP_cons, List.length_cons]
    cases x.Success <;> simp <;> omega

/-! ## Counters -/

/-- C1: from a fresh aggregator and with any reporter (also `nil`), after any
sequence of results `rs` the next call of `ProcessResult` leaves
`TotalChecks == SuccessCount + FailureCount` and raises `TotalChecks` and
exactly one of `SuccessCount` (on success) or `FailureCount` (otherwise) by
one, the other being unchanged.  The equations hold in `uint64` arithmetic
for every sequence, and as equations between the numbers themselves as long
as fewer than `2 ^ 64` results have been processed. -/
theorem C1_counters_consistent {σ : Type} (reporter : Option (HealthReporter σ)) (sink : σ)
    (rs : List Result) (r : Result) :
    (processAll reporter (fresh sink) (rs ++ [r])).agg =
      ((processAll reporter (fresh sink) rs).agg.ProcessResult r reporter
        (processAll reporter (fresh sink) rs).sink).agg ∧
    (processAll reporter (fresh sink) (rs ++ [r])).agg.TotalChecks =
      ((processAll reporter (fresh sink) (rs ++ [r])).agg.SuccessCount +
        (processAll reporter (fresh sink) (rs ++ [r])).agg.FailureCount) % uint64Size ∧
    (processAll reporter (fresh sink) (rs ++ [r])).agg.TotalChecks =
      ((processAll reporter (fresh sink) rs).agg.TotalChecks + 1) % uint64Size ∧
    (r.Success = true →
      (processAll reporter (fresh sink) (rs ++ [r])).agg.SuccessCount =
        ((processAll reporter (fresh sink) rs).agg.SuccessCount + 1) % uint64Size ∧
      (processAll reporter (fresh sink) (rs ++ [r])).agg.FailureCount =
        (processAll reporter (fresh sink) rs).agg.FailureCount) ∧
    (r.Success = false →
      (processAll reporter (fresh sink) (rs ++ [r])).agg.FailureCount =
        ((processAll reporter (fresh sink) rs).agg.FailureCount + 1) % uint64Size ∧
      (processAll reporter (fresh sink) (rs ++ [r])).agg.SuccessCount =
        (processAll reporter (fresh sink) rs).agg.SuccessCount) ∧
    (rs.length + 1 < uint64Size →
      (processAll reporter (fresh sink) (rs ++ [r])).agg.TotalChecks =
        (processAll reporter (fresh sink) (rs ++ [r])).agg.SuccessCount +
          (processAll reporter (fresh sink) (rs ++ [r])).agg.FailureCount ∧
      (processAll reporter (fresh sink) (rs ++ [r])).agg.TotalChecks =
        (processAll reporter (fresh sink) rs).agg.TotalChecks + 1 ∧
      (r.Success = true →
        (processAll reporter (fresh sink) (rs ++ [r])).agg.SuccessCount =
          (processAll reporter (fresh sink) rs).agg.SuccessCount + 1) ∧
      (r.Success = false →
        (processAll reporter (fresh sink) (rs ++ [r])).agg.FailureCount =
          (processAll reporter (fresh sink) rs).agg.FailureCount + 1)) := by
  have hsnoc := processAll_snoc reporter (fresh sink) rs r
  have hagg : (processAll reporter (fresh sink) (rs ++ [r])).agg =
      ((processAll reporter (fresh sink) rs).agg.ProcessResult r reporter
        (processAll reporter (fresh sink) rs).sink).agg := by rw [hsnoc]
  obtain ⟨ht, hs, hf⟩ := processAll_counters reporter sink rs
  obtain ⟨ht1, hs1, hf1⟩ := processAll_counters reporter sink (rs ++ [r])
  have hsum := countP_success_add_failure rs
  have hsum1 := countP_success_add_failure (rs ++ [r])
  have hlen : (rs ++ [r]).length = rs.length + 1 := by simp
  have hle1 := List.countP_le_length (fun (r : Result) => r.Success) (l := rs)
  have hle2 := List.countP_le_length (fun (r : Result) => !r.Success) (l := rs)
  cases hr : r.Success with
  | true =>
    have hcs : (rs ++ [r]).countP (fun r => r.Success) =
        rs.countP (fun r => r.Success) + 1 := by
      simp [List.countP_append, List.countP_cons, hr]
    have hcf : (rs ++ [r]).countP (fun r => !r.Success) =
        rs.countP (fun r => !r.Success) := by
      simp [List.countP_append, List.countP_cons, hr]
    rw [ht1, hs1, hf1, ht, hs, hf, hcs, hcf, hlen]
    simp only [uint64Size] at *
    refine ⟨hagg, ?_, ?_, ?_, ?_, ?_⟩
    · omega
    · omega
    · intro _; exact ⟨by omega, trivial⟩
    · intro h; cases h
    · intro hb
      refine ⟨?_, ?_, ?_, ?_⟩
      · omega
      · omega
      · intro _; omega
      · intro h; cases h
  | false =>
    have hcs : (rs ++ [r]).countP (fun r => r.Success) =
        rs.countP (fun r => r.Success) := by
      simp [List.countP_append, List.countP_cons, hr]
    have hcf : (rs ++ [r]).countP (fun r => !r.Success) =
        rs.countP (fun r => !r.Success) + 1 := by
      simp [List.countP_append, List.countP_cons, hr]
    rw [ht1, hs1, hf1, ht, hs, hf, hcs, hcf, hlen]
    simp only [uint64Size] at *
    refine ⟨hagg, ?_, ?_, ?_, ?_, ?_⟩
    · omega
    · omega
    · intro h; cases h
    · intro _; exact ⟨by omega, trivial⟩
    · intro hb
      refine ⟨?_, ?_, ?_, ?_⟩
      · omega
      · omega
      · intro h; cases h
      · intro _; omega

/-! ## The map of last results -/

theorem lookupEntries_storeEntries {α : Type} (es : List (String × α)) (k : String) (v : α)
    (key : String) :
    GoMap.lookupEntries (GoMap.storeEntries es k v) key =
      if k = key then some v else GoMap.lookupEntries es key := by
  induction es with
  | nil => simp [GoMap.storeEntries, GoMap.lookupEntries]
  | cons e rest ih =>
    obtain ⟨k0, w⟩ := e
    by_cases h0 : k0 = k
    · subst h0
      simp only [GoMap.storeEntries, if_true, GoMap.lookupEntries]
      by_cases h1 : k0 = key <;> simp [h1]
    · simp only [GoMap.storeEntries, if_neg h0, GoMap.lookupEntries, ih]
      by_cases h1 : k0 = key
      · have h2 : ¬ k = key := fun h => h0 (h1.trans h.symm)
        simp [h1, h2]
      · simp [h1]

theorem keys_storeEntries {α : Type} (es : List (String × α)) (k : String) (v : α) :
    (GoMap.storeEntries es k v).map Prod.fst =
      if k ∈ es.map Prod.fst then es.map Prod.fst else es.map Prod.fst ++ [k] := by
  induction es with
  | nil => simp [GoMap.storeEntries]
  | cons e rest ih =>
    obtain ⟨k0, w⟩ := e
    by_cases h0 : k0 = k
    · subst h0
      simp [GoMap.storeEntries]
    · have h0s : ¬ k = k0 := fun h => h0 h.symm
      simp only [GoMap.storeEntries, if_neg h0, List.map_cons, ih, List.mem_cons, h0s, false_or]
      by_cases hm : k ∈ rest.map Prod.fst <;> simp [hm]

theorem GoMap.lookup_store {α : Type} (m : GoMap α) (k : String) (v : α) (key : String) :
    (m.store k v).lookup key = if k = key then some v else m.lookup key :=
  lookupEntries_storeEntries m.entries k v key

theorem GoMap.keys_store {α : Type} (m : GoMap α) (k : String) (v : α) :
    (m.store k v).keys = if k ∈ m.keys then m.keys else m.keys ++ [k] :=
  keys_storeEntries m.entries k v

theorem GoMap.mem_keys_store {α : Type} (m : GoMap α) (k : String) (v : α) (key : String) :
    key ∈ (m.store k v).keys ↔ key = k ∨ key ∈ m.keys := by
  rw [GoMap.keys_store]
  by_cases hm : k ∈ m.keys
  · simp only [hm, if_true]
    constructor
    · intro h; exact Or.inr h
    · rintro (h | h)
      · rw [h]; exact hm
      · exact h
  · simp only [hm, if_false, List.mem_append, List.mem_singleton]
    tauto

theorem GoMap.nodup_keys_store {α : Type} (m : GoMap α) (k : String) (v : α)
    (h : m.keys.Nodup) : (m.store k v).keys.Nodup := by
  rw [GoMap.keys_store]
  by_cases hm : k ∈ m.keys
  · simpa [hm] using h
  · simp only [hm, if_false]
    rw [List.nodup_append]
    refine ⟨h, List.nodup_singleton k, ?_⟩
    intro a ha hb
    rw [List.mem_singleton] at hb
    exact hm (hb ▸ ha)

theorem GoMap.len_eq_keys_length {α : Type} (m : GoMap α) : m.len = m.keys.length := by
  simp [GoMap.len, GoMap.keys]

/-- The latest result for `url` in a sequence of results. -/
theorem getLast?_filter_snoc (rs : List Result) (r : Result) (url : String) :
    ((rs ++ [r]).filter (fun x => decide (x.URL = url))).getLast? =
      if r.URL = url then some r
      else (rs.filter (fun x => decide (x.URL = url))).getLast? := by
  rw [List.filter_append]
  by_cases h : r.URL = url
  · simp [h, List.filter_cons]
  · simp [h, List.filter_cons]

/-- The map of last results after a run from a fresh aggregator: its keys
are distinct, they are the URLs of the processed results, and each URL is
bound to the latest result carrying it. -/
theorem processAll_lastResults {σ : Type} (reporter : Option (HealthReporter σ)) (sink : σ)
    (rs : List Result) :
    (processAll reporter (fresh sink) rs).agg.LastResults.keys.Nodup ∧
    (∀ url, url ∈ (processAll reporter (fresh sink) rs).agg.LastResults.keys ↔
      url ∈ rs.map (fun r => r.URL)) ∧
    (∀ url, (processAll reporter (fresh sink) rs).agg.LastResults.lookup url =
      (rs.filter (fun x => decide (x.URL = url))).getLast?) := by
  induction rs using List.reverseRecOn with
  | nil =>
    simp [processAll, fresh, NewAggregator, GoMap.empty, GoMap.keys, GoMap.lookup,
      GoMap.lookupEntries]
  | append_singleton xs x ih =>
    obtain ⟨hn, hk, hl⟩ := ih
    rw [processAll_snoc]
    simp only [ProcessResult_last]
    refine ⟨GoMap.nodup_keys_store _ _ _ hn, ?_, ?_⟩
    · intro url
      rw [GoMap.mem_keys_store, hk url]
      simp only [List.map_append, List.map_cons, List.map_nil, List.mem_append,
        List.mem_singleton]
      tauto
    · intro url
      rw [GoMap.lookup_store, hl url, getLast?_filter_snoc]

/-- The number of entries of the map of last results is the number of
distinct URLs processed. -/
theorem processAll_lastResults_len {σ : Type} (reporter : Option (HealthReporter σ)) (sink : σ)
    (rs : List Result) :
    (processAll reporter (fresh sink) rs).agg.LastResults.len =
      ((rs.map (fun r => r.URL)).dedup).length := by
  obtain ⟨hn, hk, _⟩ := processAll_lastResults reporter sink rs
  have hperm : ((processAll reporter (fresh sink) rs).agg.LastResults.keys).Perm
      ((rs.map (fun r => r.URL)).dedup) := by
    rw [List.perm_ext_iff_of_nodup hn (List.nodup_dedup _)]
    intro url
    rw [hk url, List.mem_dedup]
  rw [GoMap.len_eq_keys_length]; exact hperm.length_eq

/-- C2: after any sequence of results processed from a fresh aggregator,
`LastResults` has one entry per distinct URL of the sequence and no other
key (so as many entries as calls when the URLs are pairwise distinct), and
the entry of each URL is the last result of the sequence with that URL. -/
theorem C2_lastResults_latest_per_url {σ : Type} (reporter : Option (HealthReporter σ))
    (sink : σ) (rs : List Result) :
    (processAll reporter (fresh sink) rs).agg.LastResults.keys.Nodup ∧
    (∀ url, url ∈ (processAll reporter (fresh sink) rs).agg.LastResults.keys ↔
      ∃ r ∈ rs, r.URL = url) ∧
    (processAll reporter (fresh sink) rs).agg.LastResults.len =
      ((rs.map (fun r => r.URL)).dedup).length ∧
    ((rs.map (fun r => r.URL)).Nodup →
      (processAll reporter (fresh sink) rs).agg.LastResults.len = rs.length) ∧
    (∀ url, (processAll reporter (fresh sink) rs).agg.LastResults.lookup url =
      (rs.filter (fun x => decide (x.URL = url))).getLast?) := by
  obtain ⟨hn, hk, hl⟩ := processAll_lastResults reporter sink rs
  have hlen := processAll_lastResults_len reporter sink rs
  refine ⟨hn, ?_, hlen, ?_, hl⟩
  · intro url
    rw [hk url, List.mem_map]
  · intro hnd
    rw [hlen, List.Nodup.dedup hnd, List.length_map]

/-! ## What the reporter is handed -/

theorem ProcessResult_calls {σ : Type} (a : Aggregator) (r : Result)
    (rep : HealthReporter σ) (sink : σ) :
    (a.ProcessResult r (some rep) sink).calls = [⟨r, a.LastResults.lookup r.URL⟩] := rfl

theorem ProcessResult_sink {σ : Type} (a : Aggregator) (r : Result)
    (rep : HealthReporter σ) (sink : σ) :
    (a.ProcessResult r (some rep) sink).sink =
      (rep.Report sink r (a.LastResults.lookup r.URL)).1 := rfl

/-- The invocations of a non-nil reporter over a run from a fresh
aggregator: one per result, each with the latest earlier result of the same
URL. -/
theorem processAll_calls {σ : Type} (rep : HealthReporter σ) (sink : σ) (rs : List Result) :
    (processAll (some rep) (fresh sink) rs).calls.length = rs.length ∧
    ∀ (i : Nat) (r : Result), rs[i]? = some r →
      (processAll (some rep) (fresh sink) rs).calls[i]? =
        some (ReportCall.mk r ((rs.take i).filter (fun x => decide (x.URL = r.URL))).getLast?) := by
  induction rs using List.reverseRecOn with
  | nil => simp [processAll, fresh]
  | append_singleton xs x ih =>
    obtain ⟨hlen, hcalls⟩ := ih
    rw [processAll_snoc]
    simp only [ProcessResult_calls]
    refine ⟨by simp [hlen], ?_⟩
    intro i r hi
    rcases Nat.lt_or_ge i xs.length with hlt | hge
    · rw [List.getElem?_append_left hlt] at hi
      rw [List.getElem?_append_left (by rw [hlen]; exact hlt), hcalls i r hi,
        List.take_append_of_le_length (Nat.le_of_lt hlt)]
    · rw [List.getElem?_append_right hge] at hi
      have hi0 : i - xs.length = 0 := by
        by_contra hne
        have : 1 ≤ i - xs.length := Nat.one_le_iff_ne_zero.mpr hne
        rw [List.getElem?_eq_none (by simpa using this)] at hi
        cases hi
      have hieq : i = xs.length := by omega
      subst hieq
      simp only [Nat.sub_self, List.getElem?_cons_zero, Option.some.injEq] at hi
      subst hi
      rw [List.getElem?_append_right (by rw [hlen]), hlen, Nat.sub_self,
        List.take_left, (processAll_lastResults (some rep) sink xs).2.2 x.URL]
      rfl

/-- The sink of a run is what the reporter made of the recorded invocations,
one after another. -/
theorem processAll_sink {σ : Type} (rep : HealthReporter σ) (sink : σ) (rs : List Result) :
    (processAll (some rep) (fresh sink) rs).sink =
      (processAll (some rep) (fresh sink) rs).calls.foldl
        (fun s c => (rep.Report s c.result c.previousState).1) sink := by
  induction rs using List.reverseRecOn with
  | nil => simp [processAll, fresh]
  | append_singleton xs x ih =>
    rw [processAll_snoc]
    simp only [ProcessResult_calls, ProcessResult_sink, List.foldl_append, List.foldl_cons,
      List.foldl_nil]
    rw [← ih]

/-- C3: with a ConsoleReporter, `ProcessResult` prints exactly one line,
built from the result and the result stored for its URL.  A success over a
stored failure prints RECOVERED, a failure over a stored success prints
NEWLY DOWN, and a first observation or a stored result of the same outcome
prints neither. -/
theorem C3_transition_signal (cr : ConsoleReporter) (a : Aggregator) (result : Result)
    (console : List ConsoleLine) :
    (a.ProcessResult result (some cr.toReporter) console).sink =
      console ++ [cr.line result (a.LastResults.lookup result.URL)] ∧
    (∀ prev, a.LastResults.lookup result.URL = some prev →
      result.Success = true → prev.Success = false →
      (cr.line result (a.LastResults.lookup result.URL)).stateChanged = "🔄 RECOVERED") ∧
    (∀ prev, a.LastResults.lookup result.URL = some prev →
      result.Success = false → prev.Success = true →
      (cr.line result (a.LastResults.lookup result.URL)).stateChanged = "🔄 NEWLY DOWN") ∧
    (a.LastResults.lookup result.URL = none →
      (cr.line result (a.LastResults.lookup result.URL)).stateChanged = "") ∧
    (∀ prev, a.LastResults.lookup result.URL = some prev →
      prev.Success = result.Success →
      (cr.line result (a.LastResults.lookup result.URL)).stateChanged = "") := by
  refine ⟨rfl, ?_, ?_, ?_, ?_⟩
  · intro prev hp hr hs
    simp [ConsoleReporter.line, hp, hr, hs]
  · intro prev hp hr hs
    simp [ConsoleReporter.line, hp, hr, hs]
  · intro hp
    simp [ConsoleReporter.line, hp]
  · intro prev hp hs
    simp [ConsoleReporter.line, hp, hs]

/-- C4: over any sequence of results processed from a fresh aggregator with
a non-nil reporter, the reporter is invoked once per result, in order; the
i-th invocation gets the i-th result and a copy of the latest earlier result
with the same URL, or nil when there is none.  The predecessor is read from
the map as it was before the call stores the new result, so it is always one
of the earlier results. -/
theorem C4_reporter_gets_true_predecessor {σ : Type} (rep : HealthReporter σ) (sink : σ)
    (rs : List Result) :
    (processAll (some rep) (fresh sink) rs).calls.length = rs.length ∧
    (∀ (i : Nat) (r : Result), rs[i]? = some r →
      (processAll (some rep) (fresh sink) rs).calls[i]? =
        some (ReportCall.mk r ((rs.take i).filter (fun x => decide (x.URL = r.URL))).getLast?)) ∧
    (∀ (i : Nat) (r : Result), rs[i]? = some r → (∀ x ∈ rs.take i, x.URL ≠ r.URL) →
      (processAll (some rep) (fresh sink) rs).calls[i]? = some (ReportCall.mk r none)) ∧
    (∀ (i : Nat) (r p : Result),
      (processAll (some rep) (fresh sink) rs).calls[i]? = some (ReportCall.mk r (some p)) →
      p ∈ rs.take i ∧ p.URL = r.URL) ∧
    (∀ (a : Aggregator) (r : Result) (s : σ),
      (a.ProcessResult r (some rep) s).calls = [⟨r, a.LastResults.lookup r.URL⟩] ∧
      (a.ProcessResult r (some rep) s).sink =
        (rep.Report s r (a.LastResults.lookup r.URL)).1) ∧
    (processAll (some rep) (fresh sink) rs).sink =
      (processAll (some rep) (fresh sink) rs).calls.foldl
        (fun s c => (rep.Report s c.result c.previousState).1) sink := by
  obtain ⟨hlen, hcalls⟩ := processAll_calls rep sink rs
  refine ⟨hlen, hcalls, ?_, ?_, fun a r s => ⟨rfl, rfl⟩, processAll_sink rep sink rs⟩
  · intro i r hi hnone
    rw [hcalls i r hi]
    have hf : (rs.take i).filter (fun x => decide (x.URL = r.URL)) = [] := by
      rw [List.filter_eq_nil_iff]
      intro x hx
      simpa using hnone x hx
    rw [hf]; rfl
  · intro i r p hc
    have hi : i < rs.length := by
      rw [← hlen]
      by_contra hge
      rw [List.getElem?_eq_none (Nat.le_of_not_lt hge)] at hc
      cases hc
    have hri : rs[i]? = some rs[i] := List.getElem?_eq_getElem hi
    rw [hcalls i rs[i] hri] at hc
    simp only [Option.some.injEq, ReportCall.mk.injEq] at hc
    obtain ⟨hr, hp⟩ := hc
    subst hr
    have hmem := List.mem_of_getLast?_eq_some hp
    rw [List.mem_filter] at hmem
    exact ⟨hmem.1, by simpa using hmem.2⟩

/-! ## Reporting failures -/

theorem processAll_agg_irrelevant {σ τ : Type} (rep1 : Option (HealthReporter σ))
    (rep2 : Option (HealthReporter τ)) (rs : List Result) (p : Processed σ) (q : Processed τ)
    (h : p.agg = q.agg) :
    (processAll rep1 p rs).agg = (processAll rep2 q rs).agg := by
  induction rs generalizing p q with
  | nil => simpa [processAll] using h
  | cons x xs ih =>
    simp only [processAll]
    apply ih
    show (p.agg.ProcessResult x rep1 p.sink).agg = (q.agg.ProcessResult x rep2 q.sink).agg
    rw [h]; rfl

/-- C6: what the reporter does or returns has no effect on the aggregate
state.  For every aggregator and result, the counters and `LastResults` left
by `ProcessResult` are the same for any two reporters (whatever `Report`
returns: an error or nil) and the same as with the nil reporter; the same
holds along any sequence of results.  `ProcessResult` has no failure
outcome at all. -/
theorem C6_reporter_outcome_irrelevant {σ τ : Type} (rep1 : HealthReporter σ)
    (rep2 : HealthReporter τ) (s1 : σ) (s2 : τ) (a : Aggregator) (result : Result)
    (rs : List Result) :
    (a.ProcessResult result (some rep1) s1).agg = (a.ProcessResult result (some rep2) s2).agg ∧
    (a.ProcessResult result (some rep1) s1).agg =
      (a.ProcessResult result (none : Option (HealthReporter τ)) s2).agg ∧
    (a.ProcessResult result (some rep1) s1).agg =
      { TotalChecks := (a.TotalChecks + 1) % uint64Size,
        SuccessCount := if result.Success then (a.SuccessCount + 1) % uint64Size
          else a.SuccessCount,
        FailureCount := if result.Success then a.FailureCount
          else (a.FailureCount + 1) % uint64Size,
        TotalDuration := a.TotalDuration,
        LastResults := a.LastResults.store result.URL result } ∧
    (processAll (some rep1) ⟨a, s1, []⟩ rs).agg = (processAll (some rep2) ⟨a, s2, []⟩ rs).agg ∧
    (processAll (some rep1) ⟨a, s1, []⟩ rs).agg =
      (processAll (none : Option (HealthReporter τ)) ⟨a, s2, []⟩ rs).agg :=
  ⟨rfl, rfl, rfl, processAll_agg_irrelevant _ _ rs _ _ rfl,
    processAll_agg_irrelevant _ _ rs _ _ rfl⟩

/-! ## The slow-response flag -/

theorem markSlow_flagged (s : String) : List.IsSuffix " (slow)".data (markSlow s).data := by
  simp only [markSlow, String.data_append]
  exact List.suffix_append _ _

theorem formatMs_not_flagged (ms : Int) : ¬ List.IsSuffix " (slow)".data (formatMs ms).data := by
  rintro ⟨t, ht⟩
  have hlast := congrArg List.getLast? ht
  simp [formatMs, String.data_append] at hlast

theorem Milliseconds_nonneg (d : Int) (h : 0 ≤ d) : Milliseconds d = d / 1000000 := by
  unfold Milliseconds
  exact Int.tdiv_eq_ediv h (by decide)

theorem Milliseconds_neg (d : Int) (h : d < 0) : Milliseconds d = -((-d) / 1000000) := by
  unfold Milliseconds
  have hd : d = -(-d) := by omega
  rw [hd, Int.neg_tdiv, Int.tdiv_eq_ediv (by omega) (by decide)]
  simp

theorem line_responseTime (cr : ConsoleReporter) (result : Result) (prev : Option Result) :
    (cr.line result prev).responseTime =
      if result.Success = true ∧ Milliseconds result.Duration > cr.SlowThresholdMs then
        markSlow (formatMs (Milliseconds result.Duration))
      else formatMs (Milliseconds result.Duration) := by
  simp only [ConsoleReporter.line, Bool.and_eq_true, decide_eq_true_eq]

theorem flaggedSlow_iff (cr : ConsoleReporter) (result : Result) (prev : Option Result) :
    (cr.line result prev).flaggedSlow ↔
      (result.Success = true ∧ cr.SlowThresholdMs < Milliseconds result.Duration) := by
  unfold ConsoleLine.flaggedSlow
  rw [line_responseTime]
  by_cases h : result.Success = true ∧ Milliseconds result.Duration > cr.SlowThresholdMs
  · rw [if_pos h]
    exact ⟨fun _ => h, fun _ => markSlow_flagged _⟩
  · simp only [if_neg h]
    constructor
    · intro hc; exact absurd hc (formatMs_not_flagged _)
    · intro hc; exact absurd hc h

/-- C10: the line printed by `Report` flags the response as slow exactly when
the result is a success and its duration, truncated to whole milliseconds
(`Duration / 1000000` rounded toward zero), is strictly above
`SlowThresholdMs`.  In nanoseconds: a success of non-negative duration is
flagged exactly from `(SlowThresholdMs + 1) * 1000000` on, and one of
negative duration exactly above `SlowThresholdMs * 1000000`.  A failed
result is never flagged, a success whose milliseconds equal the threshold is
not flagged, and the response-time field is the same whatever the previous
state is. -/
theorem C10_slow_flag (cr : ConsoleReporter) (console : List ConsoleLine) (result : Result)
    (prev other : Option Result) :
    (cr.Report console result prev).1 = console ++ [cr.line result prev] ∧
    ((cr.line result prev).flaggedSlow ↔
      (result.Success = true ∧ cr.SlowThresholdMs < Int.tdiv result.Duration 1000000)) ∧
    (result.Success = true → 0 ≤ result.Duration →
      ((cr.line result prev).flaggedSlow ↔
        (cr.SlowThresholdMs + 1) * 1000000 ≤ result.Duration)) ∧
    (result.Success = true → result.Duration < 0 →
      ((cr.line result prev).flaggedSlow ↔ cr.SlowThresholdMs * 1000000 < result.Duration)) ∧
    (result.Success = false → ¬ (cr.line result prev).flaggedSlow) ∧
    (Int.tdiv result.Duration 1000000 = cr.SlowThresholdMs →
      ¬ (cr.line result prev).flaggedSlow) ∧
    ((cr.line result prev).flaggedSlow →
      (cr.line result prev).responseTime =
        markSlow (formatMs (Int.tdiv result.Duration 1000000))) ∧
    (¬ (cr.line result prev).flaggedSlow →
      (cr.line result prev).responseTime = formatMs (Int.tdiv result.Duration 1000000)) ∧
    (cr.line result prev).responseTime = (cr.line result other).responseTime := by
  have hiff := flaggedSlow_iff cr result prev
  have hms : Milliseconds result.Duration = Int.tdiv result.Duration 1000000 := rfl
  refine ⟨rfl, ?_, ?_, ?_, ?_, ?_, ?_, ?_, ?_⟩
  · rw [hiff, hms]
  · intro hs hd
    rw [hiff, Milliseconds_nonneg _ hd]
    constructor
    · rintro ⟨_, h⟩; omega
    · intro h; exact ⟨hs, by omega⟩
  · intro hs hd
    rw [hiff, Milliseconds_neg _ hd]
    constructor
    · rintro ⟨_, h⟩; omega
    · intro h; exact ⟨hs, by omega⟩
  · intro hf hs
    rw [hiff, hf] at hs
    exact absurd hs.1 (by decide)
  · intro he hs
    rw [hiff, hms, he] at hs
    exact lt_irrefl _ hs.2
  · intro hs
    rw [hiff] at hs
    rw [line_responseTime, if_pos hs, hms]
  · intro hs
    rw [hiff] at hs
    rw [line_responseTime, if_neg hs, hms]
  · rw [line_responseTime, line_responseTime]

/-! ## Ping -/

/-- C8: `Ping` keeps every probe failure inside the result.  Whatever the
HTTP exchange does, the result is a success exactly when a response arrived
with a status from 200 to 299; its `Error` is non-nil exactly when it is not
a success, and the error returned next to the result is that same `Error`.
When a response arrived, `Metrics["statusCode"]` is its status code.  When
the request could not be built, the result is a failure with a zero
duration. -/
theorem C8_ping_captures_failures (c : Checker) (now : Int) (x : Exchange) :
    ((c.Ping now x).1.Success = true ↔
      ∃ statusCode elapsed, x = Exchange.response statusCode elapsed ∧
        200 ≤ statusCode ∧ statusCode < 300) ∧
    ((c.Ping now x).1.Error ≠ none ↔ (c.Ping now x).1.Success = false) ∧
    (c.Ping now x).2 = (c.Ping now x).1.Error ∧
    (∀ statusCode elapsed, x = Exchange.response statusCode elapsed →
      (c.Ping now x).1.Metrics.lookup "statusCode" = some (MetricValue.int statusCode) ∧
      (c.Ping now x).1.Duration = elapsed) ∧
    (∀ err, x = Exchange.requestError err →
      (c.Ping now x).1.Success = false ∧ (c.Ping now x).1.Duration = 0) ∧
    (∀ err elapsed, x = Exchange.transportError err elapsed →
      (c.Ping now x).1.Success = false ∧ (c.Ping now x).1.Duration = elapsed) := by
  cases x with
  | requestError err => simp [Checker.Ping]
  | transportError err elapsed => simp [Checker.Ping]
  | response statusCode elapsed =>
    by_cases h : 200 ≤ statusCode ∧ statusCode < 300
    · obtain ⟨h1, h2⟩ := h
      simp [Checker.Ping, h1, h2, GoMap.store, GoMap.storeEntries, GoMap.lookup,
        GoMap.lookupEntries, GoMap.empty]
    · have hs : (decide (statusCode ≥ 200) && decide (statusCode < 300)) = false := by
        simpa using h
      simp only [Checker.Ping, hs]
      simp [GoMap.store, GoMap.storeEntries, GoMap.lookup, GoMap.lookupEntries, GoMap.empty]
      intro h1
      omega

/-! ## scheduleChecks -/

theorem scheduleChecks_urls (urls : List String) (ch : JobChan) :
    (scheduleChecks urls ch).2.map Emission.url = urls := by
  induction urls generalizing ch with
  | nil => rfl
  | cons u us ih =>
    simp only [scheduleChecks]
    split <;> simp [Emission.url, ih]

/-- With no worker parked on the channel, the jobs that fit in the free part
of the buffer are queued in order and every later URL is skipped. -/
theorem scheduleChecks_not_drained (urls : List String) (ch : JobChan) (h : ch.parked = 0) :
    scheduleChecks urls ch =
      ({ ch with buffer := ch.buffer ++
            (urls.take (ch.capacity - ch.buffer.length)).map (fun u => Checker.mk u) },
        (urls.take (ch.capacity - ch.buffer.length)).map (fun u => Emission.sent ⟨u⟩) ++
          (urls.drop (ch.capacity - ch.buffer.length)).map Emission.skipped) := by
  induction urls generalizing ch with
  | nil => simp [scheduleChecks]
  | cons u us ih =>
    have hp : ¬ 0 < ch.parked := by omega
    by_cases hroom : ch.buffer.length < ch.capacity
    · have hk : ch.capacity - ch.buffer.length = (ch.capacity - (ch.buffer.length + 1)) + 1 := by
        omega
      simp only [scheduleChecks, JobChan.trySend, if_neg hp, if_pos hroom]
      rw [ih { ch with buffer := ch.buffer ++ [⟨u⟩] } h]
      simp only [List.length_append, List.length_singleton]
      rw [hk]
      simp [List.append_assoc]
    · have hk : ch.capacity - ch.buffer.length = 0 := by omega
      simp only [scheduleChecks, JobChan.trySend, if_neg hp, if_neg hroom]
      rw [ih ch h, hk]
      simp

theorem sentJobs_append (xs ys : List Emission) :
    sentJobs (xs ++ ys) = sentJobs xs ++ sentJobs ys := by
  induction xs with
  | nil => rfl
  | cons e es ih => cases e <;> simp [sentJobs, ih]

theorem sentJobs_sent (l : List String) :
    sentJobs (l.map (fun u => Emission.sent ⟨u⟩)) = l.map (fun u => Checker.mk u) := by
  induction l with
  | nil => rfl
  | cons u us ih => simp [sentJobs, ih]

theorem sentJobs_skipped (l : List String) : sentJobs (l.map Emission.skipped) = [] := by
  induction l with
  | nil => rfl
  | cons u us ih => simp [sentJobs, ih]

/-- What `scheduleChecks` does in full: the first jobs go to the parked
workers, the next ones fill the free part of the buffer, and every URL after
those is skipped. -/
theorem scheduleChecks_spec (urls : List String) (ch : JobChan) :
    scheduleChecks urls ch =
      ({ ch with
          parked := ch.parked - urls.length
          handed := ch.handed ++ (urls.take ch.parked).map (fun u => Checker.mk u)
          buffer := ch.buffer ++
            ((urls.drop ch.parked).take (ch.capacity - ch.buffer.length)).map
              (fun u => Checker.mk u) },
        (urls.take (ch.parked + (ch.capacity - ch.buffer.length))).map
            (fun u => Emission.sent ⟨u⟩) ++
          (urls.drop (ch.parked + (ch.capacity - ch.buffer.length))).map Emission.skipped) := by
  induction urls generalizing ch with
  | nil => simp [scheduleChecks]
  | cons u us ih =>
    by_cases hp : 0 < ch.parked
    · obtain ⟨n, hn⟩ : ∃ n, ch.parked = n + 1 := ⟨ch.parked - 1, by omega⟩
      simp only [scheduleChecks, JobChan.trySend, if_pos hp]
      rw [ih { ch with parked := ch.parked - 1, handed := ch.handed ++ [⟨u⟩] }]
      simp only [hn, Nat.add_sub_cancel, List.length_cons, Nat.add_sub_add_right,
        List.take_succ_cons, List.drop_succ_cons, List.map_cons, List.append_assoc,
        List.singleton_append, Nat.add_right_comm n 1, List.cons_append, List.nil_append]
    · have h0 : ch.parked = 0 := by omega
      rw [scheduleChecks_not_drained (u :: us) ch h0, h0]
      simp

/-- C5: `scheduleChecks` is a total function of the URL list and the channel
(it never waits), and its per-URL record lists every URL once, in list
order, as sent or as skipped with a warning: the URLs that find a parked
worker or a free buffer slot are sent, every later one is skipped, and the
jobs the channel gained are exactly the sent ones.  On an empty queue of capacity
C with no worker receiving, C+1 URLs put exactly the first C jobs in the
queue, in order, and skip exactly the last one; an empty URL list sends
nothing. -/
theorem C5_schedule_never_blocks (urls : List String) (ch : JobChan) :
    (scheduleChecks urls ch).2.map Emission.url = urls ∧
    (scheduleChecks urls ch).2 =
      (urls.take (ch.parked + (ch.capacity - ch.buffer.length))).map
          (fun u => Emission.sent ⟨u⟩) ++
        (urls.drop (ch.parked + (ch.capacity - ch.buffer.length))).map Emission.skipped ∧
    (scheduleChecks urls ch).1.handed ++ (scheduleChecks urls ch).1.buffer.drop ch.buffer.length =
      ch.handed ++ sentJobs (scheduleChecks urls ch).2 ∧
    scheduleChecks [] ch = (ch, []) ∧
    (ch.buffer = [] → ch.parked = 0 → urls.length = ch.capacity + 1 →
      (scheduleChecks urls ch).1.buffer = (urls.take ch.capacity).map (fun u => Checker.mk u) ∧
      (scheduleChecks urls ch).1.buffer.length = ch.capacity ∧
      (scheduleChecks urls ch).1.handed = ch.handed ∧
      (scheduleChecks urls ch).2 =
        (urls.take ch.capacity).map (fun u => Emission.sent ⟨u⟩) ++
          (urls.drop ch.capacity).map Emission.skipped ∧
      ((scheduleChecks urls ch).2.filter Emission.isSent).length = ch.capacity ∧
      ((scheduleChecks urls ch).2.filter (fun e => !e.isSent)).length = 1) := by
  refine ⟨scheduleChecks_urls urls ch, ?_, ?_, rfl, ?_⟩
  · rw [scheduleChecks_spec]
  · rw [scheduleChecks_spec]
    simp only [List.drop_left, sentJobs_append, sentJobs_sent, sentJobs_skipped,
      List.append_nil, List.append_assoc, List.append_cancel_left_eq]
    rw [← List.map_append, List.take_add]
  intro hb hp hl
  rw [scheduleChecks_not_drained urls ch hp, hb]
  simp only [List.length_nil, Nat.sub_zero, List.nil_append]
  have htake : (urls.take ch.capacity).length = ch.capacity := by
    rw [List.length_take]; omega
  have hdrop : (urls.drop ch.capacity).length = 1 := by
    rw [List.length_drop]; omega
  have hsent : ∀ l : List String,
      (l.map (fun u => Emission.sent ⟨u⟩)).filter Emission.isSent =
        l.map (fun u => Emission.sent ⟨u⟩) := by
    intro l
    rw [List.filter_eq_self]
    intro e he
    rw [List.mem_map] at he
    obtain ⟨u, _, rfl⟩ := he
    rfl
  have hskip : ∀ l : List String, (l.map Emission.skipped).filter Emission.isSent = [] := by
    intro l
    rw [List.filter_eq_nil_iff]
    intro e he
    rw [List.mem_map] at he
    obtain ⟨u, _, rfl⟩ := he
    simp [Emission.isSent]
  have hsent2 : ∀ l : List String,
      (l.map (fun u => Emission.sent ⟨u⟩)).filter (fun e => !e.isSent) = [] := by
    intro l
    rw [List.filter_eq_nil_iff]
    intro e he
    rw [List.mem_map] at he
    obtain ⟨u, _, rfl⟩ := he
    simp [Emission.isSent]
  have hskip2 : ∀ l : List String,
      (l.map Emission.skipped).filter (fun e => !e.isSent) = l.map Emission.skipped := by
    intro l
    rw [List.filter_eq_self]
    intro e he
    rw [List.mem_map] at he
    obtain ⟨u, _, rfl⟩ := he
    rfl
  refine ⟨trivial, ?_, trivial, trivial, ?_, ?_⟩
  · rw [List.length_map, htake]
  · rw [List.filter_append, hsent, hskip, List.append_nil, List.length_map, htake]
  · rw [List.filter_append, hsent2, hskip2, List.nil_append, List.length_map, hdrop]

/-! ## One tick through the pipeline -/

/-- On the unbuffered channel of `main`, a tick that finds no worker parked
skips every URL. -/
theorem scheduleChecks_unbuffered_unparked (urls : List String) :
    scheduleChecks urls (mainJobs 0) = (mainJobs 0, urls.map Emission.skipped) := by
  rw [scheduleChecks_not_drained urls (mainJobs 0) rfl]
  simp [mainJobs]

theorem C1_counters_consistent_witness :
    [sampleUp].length + 1 < uint64Size ∧
    (processAll (none : Option (HealthReporter Unit)) (fresh ())
        ([sampleUp] ++ [sampleDown])).agg.TotalChecks =
      (processAll (none : Option (HealthReporter Unit)) (fresh ())
        ([sampleUp] ++ [sampleDown])).agg.SuccessCount +
      (processAll (none : Option (HealthReporter Unit)) (fresh ())
        ([sampleUp] ++ [sampleDown])).agg.FailureCount :=
  ⟨by decide,
    ((C1_counters_consistent (none : Option (HealthReporter Unit)) () [sampleUp]
      sampleDown).2.2.2.2.2 (by decide)).1⟩

theorem C2_lastResults_latest_per_url_witness :
    ([sampleUp, sampleOther].map (fun r => r.URL)).Nodup ∧
    (processAll (none : Option (HealthReporter Unit)) (fresh ())
        [sampleUp, sampleOther]).agg.LastResults.len = [sampleUp, sampleOther].length :=
  ⟨by decide,
    (C2_lastResults_latest_per_url (none : Option (HealthReporter Unit)) ()
      [sampleUp, sampleOther]).2.2.2.1 (by decide)⟩

theorem C3_transition_signal_witness :
    sampleAggregator.LastResults.lookup sampleUp.URL = some sampleDown ∧
    sampleUp.Success = true ∧ sampleDown.Success = false ∧
    (sampleReporter.line sampleUp
      (sampleAggregator.LastResults.lookup sampleUp.URL)).stateChanged = "🔄 RECOVERED" :=
  ⟨by decide, rfl, rfl,
    (C3_transition_signal sampleReporter sampleAggregator sampleUp []).2.1 sampleDown
      (by decide) rfl rfl⟩

theorem C4_reporter_gets_true_predecessor_witness :
    [sampleDown, sampleOther, sampleUp][2]? = some sampleUp ∧
    (processAll (some sampleReporter.toReporter) (fresh [])
        [sampleDown, sampleOther, sampleUp]).calls[2]? =
      some (ReportCall.mk sampleUp
        ((([sampleDown, sampleOther, sampleUp].take 2).filter
          (fun x => decide (x.URL = sampleUp.URL))).getLast?)) :=
  ⟨rfl,
    (C4_reporter_gets_true_predecessor sampleReporter.toReporter []
      [sampleDown, sampleOther, sampleUp]).2.1 2 sampleUp rfl⟩

theorem C5_schedule_never_blocks_witness :
    (JobChan.make 2).buffer = [] ∧ (JobChan.make 2).parked = 0 ∧
    ["https://example.com", "https://google.com", "https://newperasdfja.com"].length =
      (JobChan.make 2).capacity + 1 ∧
    (scheduleChecks ["https://example.com", "https://google.com", "https://newperasdfja.com"]
        (JobChan.make 2)).1.buffer =
      (["https://example.com", "https://google.com", "https://newperasdfja.com"].take
        (JobChan.make 2).capacity).map (fun u => Checker.mk u) :=
  ⟨rfl, rfl, rfl,
    ((C5_schedule_never_blocks
      ["https://example.com", "https://google.com", "https://newperasdfja.com"]
      (JobChan.make 2)).2.2.2.2 rfl rfl rfl).1⟩

theorem C8_ping_captures_failures_witness :
    Exchange.response 204 1500000 = Exchange.response 204 1500000 ∧
    ((Checker.mk "https://example.com").Ping 7 (Exchange.response 204 1500000)).1.Metrics.lookup
        "statusCode" = some (MetricValue.int 204) :=
  ⟨rfl,
    ((C8_ping_captures_failures ⟨"https://example.com"⟩ 7
      (Exchange.response 204 1500000)).2.2.2.1 204 1500000 rfl).1⟩

theorem C10_slow_flag_witness :
    (sampleBorderline.Success = true ∧ 0 ≤ sampleBorderline.Duration ∧
      ¬ (sampleReporter.line sampleBorderline none).flaggedSlow) ∧
    (sampleSlow.Success = true ∧ 0 ≤ sampleSlow.Duration ∧
      (sampleReporter.line sampleSlow none).flaggedSlow) ∧
    (sampleDown.Success = false ∧ ¬ (sampleReporter.line sampleDown none).flaggedSlow) :=
  ⟨⟨rfl, by decide, fun h =>
      absurd (((C10_slow_flag sampleReporter [] sampleBorderline none none).2.2.1 rfl
        (by decide)).mp h) (by decide)⟩,
    ⟨rfl, by decide,
      ((C10_slow_flag sampleReporter [] sampleSlow none none).2.2.1 rfl (by decide)).mpr
        (by decide)⟩,
    ⟨rfl, (C10_slow_flag sampleReporter [] sampleDown none (some sampleUp)).2.2.2.2.1 rfl⟩⟩

end HealthMonitor
